import Mathlib

/-!
Verification development for the RoboPaint mode preload bridge
(the node-context script that gives every mode its API: IPC lifecycle
handlers, `mode.run` / `mode.fullCancel`, `mode.settings`/`$manage`,
the i18n resource merge and the two translation strategies).

JavaScript objects used as string-keyed records are embedded as
association lists (`StrMap`): property read is first-occurrence lookup,
property write replaces the first occurrence in place or appends a new
key at the end, matching JS property-order semantics.
-/

/-- A JS object viewed as a string-keyed record: association list. -/
abbrev StrMap (α : Type) : Type := List (String × α)

/-- Property read: value at the first occurrence of the key, if any. -/
def lookupKey {α : Type} : StrMap α → String → Option α
  | [], _ => none
  | (k, v) :: rest, key => if k = key then some v else lookupKey rest key

/-- Property write: replace the first occurrence in place, else append. -/
def setKey {α : Type} : StrMap α → String → α → StrMap α
  | [], key, v => [(key, v)]
  | (k, v') :: rest, key, v =>
      if k = key then (key, v) :: rest else (k, v') :: setKey rest key v

/-- JS values as they travel over IPC: strings, booleans, integers,
and arrays. -/
inductive JVal : Type where
  | s (x : String)
  | b (x : Bool)
  | n (x : Int)
  | arr (xs : List JVal)

/-- One observable outbound side effect of the preload bridge:
an `ipc.sendToHost(channel, args...)` call. -/
inductive Effect : Type where
  | sendToHost (channel : String) (args : List JVal)

/-- `mode.run`: passthrough that emits one `cncserver-run` IPC message
whose payload is the slice of the call's arguments. -/
def modeRun (args : List JVal) : Effect :=
  Effect.sendToHost "cncserver-run" args

/-- The literal command batch built by `mode.fullCancel(message)`. -/
def fullCancelBatch (message : String) : List JVal :=
  [JVal.s "clear",
   JVal.s "resume",
   JVal.s "park",
   JVal.arr [JVal.s "status", JVal.s message, JVal.b true],
   JVal.arr [JVal.s "progress", JVal.n 0, JVal.n 1],
   JVal.s "localclear"]

/-- `mode.fullCancel(message)`: one `mode.run(batch, true)` call, the
`true` flag marking the batch as priority (front of queue). -/
def fullCancel (message : String) : List Effect :=
  [modeRun [JVal.arr (fullCancelBatch message), JVal.b true]]

/-- What a mode's `onClose` implementation does when called with the
acknowledgment callback: a sequence of its own opaque side effects,
interleaved with invocations of the callback. -/
inductive CloseAction : Type where
  | own (tag : Nat)
  | ack
deriving DecidableEq, Repr

/-- A trace entry of the close handshake: either an outbound IPC send by
the handler, or an opaque effect performed by the mode's own cleanup. -/
inductive CloseEvent : Type where
  | send (channel : String)
  | modeEffect (tag : Nat)
deriving DecidableEq, Repr

/-- `handleModeClose(returnChannel)`: if the mode implements `onClose`,
call it with a callback that sends the acknowledgment on `returnChannel`;
otherwise send the acknowledgment immediately. -/
def handleModeClose (onClose : Option (List CloseAction)) (returnChannel : String) :
    List CloseEvent :=
  match onClose with
  | none => [CloseEvent.send returnChannel]
  | some acts =>
      acts.map (fun a =>
        match a with
        | CloseAction.own t => CloseEvent.modeEffect t
        | CloseAction.ack => CloseEvent.send returnChannel)

/-- The inbound close-channel registrations: both `globalclose` and
`modechange` funnel to `handleModeClose` with the channel name. -/
def ipcCloseDispatch (channel : String) (onClose : Option (List CloseAction)) :
    Option (List CloseEvent) :=
  if channel = "globalclose" ∨ channel = "modechange" then
    some (handleModeClose onClose channel)
  else
    none

/-- Result of dispatching one inbound `cncserver` event `[name, data]`:
which optional mode capability (if any) gets invoked, and with what. -/
inductive CNCResult (α : Type) : Type where
  | callCap (funcName : String) (arg : α)
  | callOnMessage (channel : String) (arg : α)
  | runTranslate
  | drop
deriving DecidableEq, Repr

/-- The capability name computed by the dispatcher:
`'on' + name.charAt(0).toUpperCase() + name.slice(1)`. -/
def cncFuncName (name : String) : String :=
  String.mk ('o' :: 'n' ::
    (match name.data with
     | [] => []
     | c :: rest => c.toUpper :: rest))

/-- `handleCNCServerMessages(name, data)`: the five recognized event
names call the correspondingly named capability when it is a function;
`langChange` re-runs translation; everything else goes to `onMessage`
when present and is otherwise dropped. `isFn c` tells whether the mode
object has a function-valued property `c`. -/
def handleCNCServerMessages {α : Type} (isFn : String → Bool)
    (name : String) (data : α) : CNCResult α :=
  if name = "penUpdate" ∨ name = "bufferUpdate" ∨ name = "fullyPaused" ∨
      name = "fullyResumed" ∨ name = "callbackEvent" then
    if isFn (cncFuncName name) then CNCResult.callCap (cncFuncName name) data
    else CNCResult.drop
  else if name = "langChange" then CNCResult.runTranslate
  else if isFn "onMessage" then CNCResult.callOnMessage name data
  else CNCResult.drop

/-- Persistent storage as seen through `robopaint.utils.getSettings`:
the application-wide document (no namespace argument) and the per-mode
documents keyed by mode name. -/
structure SettingsStorage : Type where
  global : StrMap String
  modeDocs : StrMap (StrMap String)
deriving DecidableEq, Repr

/-- `robopaint.utils.getSettings([name])`: with no argument it returns
the application-wide document; with a mode name it returns that mode's
namespaced document, empty when absent. -/
def getSettings (stg : SettingsStorage) (nsArg : Option String) : StrMap String :=
  match nsArg with
  | none => stg.global
  | some name => (lookupKey stg.modeDocs name).getD []

/-- The two in-memory settings mappings held by the bridge:
`robopaint.settings` (application-wide, read-only to modes) and
`mode.settings.v` (the mode-namespaced document). -/
structure BridgeSettings : Type where
  robopaintSettings : StrMap String
  modeSettingsV : StrMap String
deriving DecidableEq, Repr

/-- The `ipc.on('settingsUpdate', ...)` handler: re-reads the
application-wide settings into `robopaint.settings`. -/
def onSettingsUpdate (stg : SettingsStorage) (st : BridgeSettings) : BridgeSettings :=
  { st with robopaintSettings := getSettings stg none }

/-- `mode.settings.load()`: reads the mode-namespaced document into
`mode.settings.v`. -/
def modeSettingsLoad (modeName : String) (stg : SettingsStorage)
    (st : BridgeSettings) : BridgeSettings :=
  { st with modeSettingsV := getSettings stg (some modeName) }

/-- JSON values as returned by `require` on a resource file. -/
inductive Json : Type where
  | null
  | b (x : Bool)
  | n (x : Int)
  | s (x : String)
  | obj (fields : List (String × Json))

/-- JS truthiness of a value, as tested by `if (!v)`. -/
def jsTruthy : Json → Bool
  | Json.null => false
  | Json.b x => x
  | Json.n x => x ≠ 0
  | Json.s x => x ≠ ""
  | Json.obj _ => true

/-- JS string coercion of `data._meta.target` when it is used as a
property key of the resource store (an absent property reads as
`undefined` and coerces to the string "undefined"). -/
def jsKeyString : Option Json → String
  | none => "undefined"
  | some Json.null => "null"
  | some (Json.b x) => if x then "true" else "false"
  | some (Json.n x) => toString x
  | some (Json.s x) => x
  | some (Json.obj _) => "[object Object]"

/-- Evaluate `data._meta.target` as a resource-store key: reading a
property of `undefined` or `null` throws (result `none`, caught by the
per-file try/catch); any other `_meta` value yields a key string. -/
def getTarget (data : StrMap Json) : Option String :=
  match lookupKey data "_meta" with
  | none => none
  | some Json.null => none
  | some (Json.obj m) => some (jsKeyString (lookupKey m "target"))
  | some _ => some "undefined"

/-- `startsWithChars pat s`: the char list `pat` is an initial segment
of `s`. -/
def startsWithChars : List Char → List Char → Bool
  | [], _ => true
  | _ :: _, [] => false
  | p :: ps, c :: cs => p = c && startsWithChars ps cs

/-- `hasSubstring pat s`: the char list `pat` occurs contiguously in
`s` (the JS `s.indexOf(pat) !== -1` test). -/
def hasSubstring (pat : List Char) : List Char → Bool
  | [] => startsWithChars pat []
  | c :: rest => startsWithChars pat (c :: rest) || hasSubstring pat rest

/-- The mode-local loop's translation-map exclusion test:
`file.indexOf('.map.json') !== -1`. -/
def isMapFile (fname : String) : Bool :=
  hasSubstring ".map.json".data fname.data

/-- A resource file on disk: its file name and the result of
`require`-ing it (`none` when the require throws; a successful parse of
a translation file yields a JSON object). -/
structure LangFile : Type where
  fname : String
  parsed : Option (StrMap Json)

/-- The in-construction resource store, keyed by language code; the
value at a key is that language's `translation` tree. -/
abbrev ResStore : Type := StrMap (StrMap Json)

/-- One iteration of the shared-set loop of `i18nInit`: on success the
file's whole content becomes that language's translation tree; a throw
anywhere is caught, logged, and leaves the store unchanged. -/
def processSharedFile (res : ResStore) (f : LangFile) : ResStore :=
  match f.parsed with
  | none => res
  | some data =>
      match getTarget data with
      | none => res
      | some lang => setKey res lang data

/-- One iteration of the mode-local loop of `i18nInit`: translation-map
files are excluded by name; otherwise the file's content is stored under
`modes.<modeName>` of its declared language's tree. Reading
`res[lang].translation.modes` when `res[lang]` is undefined throws
(caught, store unchanged); a falsy `modes` is re-initialized to an empty
object; assigning a property of a truthy non-object `modes` throws
(caught, store unchanged). -/
def processModeFile (modeName : String) (res : ResStore) (f : LangFile) : ResStore :=
  if isMapFile f.fname then res
  else
    match f.parsed with
    | none => res
    | some data =>
        match getTarget data with
        | none => res
        | some lang =>
            match lookupKey res lang with
            | none => res
            | some tree =>
                match lookupKey tree "modes" with
                | some (Json.obj fields) =>
                    setKey res lang (setKey tree "modes"
                      (Json.obj (setKey fields modeName (Json.obj data))))
                | some v =>
                    if jsTruthy v then res
                    else setKey res lang (setKey tree "modes"
                      (Json.obj [(modeName, Json.obj data)]))
                | none =>
                    setKey res lang (setKey tree "modes"
                      (Json.obj [(modeName, Json.obj data)]))

/-- `i18nInit`: the shared-set loop runs first over the app's `_i18n`
directory, then the mode-local loop over the mode's `_i18n` directory. -/
def i18nInit (shared localFiles : List LangFile) (modeName : String) : ResStore :=
  localFiles.foldl (processModeFile modeName) (shared.foldl processSharedFile [])

/-- A form control matched by a `$manage` selector: a scalar-valued
input (identified shape: `this.value` is defined), a radio-button group
(no own value, contains radio inputs, each with a value and a checked
flag), or an element compatible with neither shape (warned and
skipped). -/
inductive Control : Type where
  | scalar (id : String) (value : String)
  | radio (id : String) (options : List (String × Bool))
  | incompatible (id : String)
deriving DecidableEq, Repr

/-- The settings document. Every change handler writes
`mode.settings.v[key] = value` immediately followed by
`mode.settings.save()`, so the in-memory mapping and the persisted
document coincide at every step of `$manage`; we carry the single
coinciding document. -/
abbrev Doc : Type := StrMap String

/-- Triggering the synthesized change event on each radio input of a
group, in order: a checked input writes its value under the group's
id and persists; an unchecked input does nothing. -/
def radioTrigger (id : String) (doc : Doc) (options : List (String × Bool)) : Doc :=
  options.foldl (fun d o => if o.2 then setKey d id o.1 else d) doc

/-- Processing of one matched control inside `$manage`:
scalar controls take the stored value if any (`$(this).val(v[key])`),
then the synthesized change writes the control's current value back;
radio groups restore the stored selection
(`prop('checked', ...)` against `input[value=...]`), then the
synthesized change on each radio persists the checked one's value;
a radio-less, value-less element is skipped with a warning. -/
def manageStep : Control → Doc → Control × Doc
  | Control.scalar id cv, doc =>
      let w := (lookupKey doc id).getD cv
      (Control.scalar id w, setKey doc id w)
  | Control.radio id options, doc =>
      match options with
      | [] => (Control.radio id [], doc)
      | _ :: _ =>
          match lookupKey doc id with
          | some s =>
              (Control.radio id (options.map (fun o => (o.1, decide (o.1 = s)))),
               radioTrigger id doc (options.map (fun o => (o.1, decide (o.1 = s)))))
          | none => (Control.radio id options, radioTrigger id doc options)
  | Control.incompatible id, doc => (Control.incompatible id, doc)

/-- The `$(selectors).each(...)` loop of `$manage`: controls processed
in order, the document threaded through; returns the updated controls
(the DOM after the call) and the final document. -/
def manageLoop : List Control → Doc → List Control × Doc
  | [], doc => ([], doc)
  | c :: rest, doc =>
      let p := manageStep c doc
      let q := manageLoop rest p.2
      (p.1 :: q.1, q.2)

/-- `mode.settings.$manage(selectors)` on a page state: the initial
`mode.settings.load()` re-reads the persisted document (the identity on
the coinciding document), then the loop runs over the matched
controls. -/
def manage (p : List Control × Doc) : List Control × Doc :=
  manageLoop p.1 p.2

/-- A control is settled for a document when re-processing it cannot
change the document: a scalar whose current value is the stored one; a
radio group that is empty, or whose key is stored, or with nothing
checked. -/
def settled : Control → Doc → Prop
  | Control.scalar id cv, doc => lookupKey doc id = some cv
  | Control.radio id options, doc =>
      options = [] ∨ (∃ s, lookupKey doc id = some s) ∨ ∀ o ∈ options, o.2 = false
  | Control.incompatible _, _ => True

/-- A DOM node as seen by the DOM-map translation: a text node
(nodeType 3) or a child element with its own attributes and subtree. -/
inductive Node : Type where
  | text (s : String)
  | elem (tag : String) (attrs : List (String × String)) (children : List Node)

/-- Whether a node is an element (nodeType 1) rather than text. -/
def isElemNode : Node → Bool
  | Node.text _ => false
  | Node.elem _ _ _ => true

/-- `$(this).contents().filter(nodeType == 3).first().replaceWith(t)`:
replace the first direct text node, leave everything else alone; a
no-op when the element has no direct text node. -/
def replaceFirstTextNode : List Node → String → List Node
  | [], _ => []
  | Node.text _ :: rest, s => Node.text s :: rest
  | Node.elem tag attrs children :: rest, s =>
      Node.elem tag attrs children :: replaceFirstTextNode rest s

/-- One DOM-map rule value: a bare translation key (direct-text
replacement) or a per-attribute mapping of attribute name to key. -/
inductive MapRule : Type where
  | key (k : String)
  | attrMap (m : List (String × String))

/-- Applying one DOM-map rule to one matched element (its attribute
list and child list), with `tr` the active `robopaint.t` lookup: a
string key replaces the first direct text node; an attribute map sets
each named attribute, the pseudo-attribute `text` meaning the same
direct-text replacement. -/
def applyMapRule (tr : String → String) (rule : MapRule)
    (attrs : List (String × String)) (children : List Node) :
    List (String × String) × List Node :=
  match rule with
  | MapRule.key k => (attrs, replaceFirstTextNode children (tr k))
  | MapRule.attrMap m =>
      m.foldl (fun p am =>
        if am.1 = "text" then (p.1, replaceFirstTextNode p.2 (tr am.2))
        else (setKey p.1 am.1 (tr am.2), p.2)) (attrs, children)

/-- An element as seen by the native translation strategy: its
`data-i18n` attribute (the translation marker; `none` when absent) and
its jQuery `.text()` content. -/
structure NativeElem : Type where
  marker : Option String
  text : String
deriving DecidableEq, Repr

/-- The JS test `s.indexOf('.') > -1`. -/
def jsContainsDot (s : String) : Bool :=
  hasSubstring ".".data s.data

/-- The per-element body of the native strategy's normalization pass
(run over `$('[data-i18n=""]')`): when the element's text contains a
dot and the marker is still empty, the marker is set to the element's
own text. -/
def normalizeMarker (e : NativeElem) : NativeElem :=
  if e.marker = some "" then
    if jsContainsDot e.text = true ∧ e.marker = some "" then
      { e with marker := some e.text }
    else e
  else e

/-- The whole normalization pass preceding the bulk
`i18n.translateObject` call in the native branch of `translateMode`. -/
def nativeNormalizePass (els : List NativeElem) : List NativeElem :=
  els.map normalizeMarker

theorem lookupKey_setKey_self {α : Type} (m : StrMap α) (k : String) (v : α) :
    lookupKey (setKey m k v) k = some v := by
  induction m with
  | nil => simp [setKey, lookupKey]
  | cons hd tl ih =>
      obtain ⟨k', v'⟩ := hd
      by_cases h : k' = k
      · simp [setKey, lookupKey, h]
      · simp [setKey, lookupKey, h, ih]

theorem lookupKey_setKey_other {α : Type} (m : StrMap α) (k k' : String) (v : α)
    (hne : k' ≠ k) : lookupKey (setKey m k v) k' = lookupKey m k' := by
  induction m with
  | nil => simp [setKey, lookupKey, Ne.symm hne]
  | cons hd tl ih =>
      obtain ⟨k0, v0⟩ := hd
      by_cases h : k0 = k
      · subst h
        simp [setKey, lookupKey, Ne.symm hne]
      · by_cases h' : k0 = k'
        · simp [setKey, lookupKey, h, h', hne]
        · simp [setKey, lookupKey, h, h', ih]

/-- Writing back the value already stored at a key leaves the record
unchanged (the first occurrence is replaced by itself). -/
theorem setKey_lookup_self {α : Type} (m : StrMap α) (k : String) (v : α)
    (h : lookupKey m k = some v) : setKey m k v = m := by
  induction m with
  | nil => simp [lookupKey] at h
  | cons hd tl ih =>
      obtain ⟨k0, v0⟩ := hd
      by_cases hk : k0 = k
      · subst hk
        simp [lookupKey] at h
        simp [setKey, h]
      · simp [lookupKey, hk] at h
        simp [setKey, hk, ih h]

/-- C2: for every message string, `fullCancel(message)` sends exactly one
outbound `cncserver-run` IPC message containing a single priority-flagged
command batch whose final command is `localclear`, the commands ordered
clear, resume, park, `[status, message, true]`, `[progress, 0, 1]`,
`localclear`. -/
theorem fullCancel_single_priority_batch (message : String) :
    fullCancel message =
      [Effect.sendToHost "cncserver-run"
        [JVal.arr [JVal.s "clear",
                   JVal.s "resume",
                   JVal.s "park",
                   JVal.arr [JVal.s "status", JVal.s message, JVal.b true],
                   JVal.arr [JVal.s "progress", JVal.n 0, JVal.n 1],
                   JVal.s "localclear"],
         JVal.b true]] ∧
    (fullCancel message).length = 1 ∧
    (fullCancelBatch message).getLast? = some (JVal.s "localclear") := by
  refine ⟨rfl, rfl, rfl⟩

/-- C1: for every inbound close event on `globalclose` or `modechange`:
with no `onClose`, the handler sends exactly one acknowledgment on that
channel and nothing else; with `onClose`, the handler performs no send of
its own before the callback is invoked (every trace entry produced before
the first callback invocation is a mode-own effect), and each callback
invocation sends the acknowledgment on the very channel that triggered
the close. -/
theorem handleModeClose_handshake (chan : String) (acts : List CloseAction)
    (hchan : chan = "globalclose" ∨ chan = "modechange") :
    (ipcCloseDispatch chan none = some [CloseEvent.send chan]) ∧
    (ipcCloseDispatch chan (some acts) = some (handleModeClose (some acts) chan)) ∧
    (∀ n : Nat, CloseAction.ack ∉ acts.take n →
      ∀ e ∈ (handleModeClose (some acts) chan).take n,
        ∀ c : String, e ≠ CloseEvent.send c) ∧
    ((handleModeClose (some acts) chan).countP
        (fun e => e = CloseEvent.send chan) =
      acts.countP (fun a => a = CloseAction.ack)) := by
  refine ⟨?_, ?_, ?_, ?_⟩
  · simp [ipcCloseDispatch, hchan, handleModeClose]
  · simp [ipcCloseDispatch, hchan]
  · intro n hn e he c
    simp only [handleModeClose] at he
    rw [← List.map_take, List.mem_map] at he
    obtain ⟨a, ha, hae⟩ := he
    cases a with
    | own t =>
        subst hae
        simp
    | ack => exact absurd ha hn
  · simp only [handleModeClose]
    rw [List.countP_map]
    apply List.countP_congr
    intro a _
    cases a with
    | own t => simp
    | ack => simp

/-- Witness for `handleModeClose_handshake` at a concrete channel and a
concrete deferred `onClose` body. -/
theorem handleModeClose_handshake_witness :
    (ipcCloseDispatch "globalclose" none = some [CloseEvent.send "globalclose"]) ∧
    (ipcCloseDispatch "globalclose"
        (some [CloseAction.own 7, CloseAction.ack]) =
      some (handleModeClose (some [CloseAction.own 7, CloseAction.ack]) "globalclose")) ∧
    (∀ n : Nat, CloseAction.ack ∉ ([CloseAction.own 7, CloseAction.ack] : List CloseAction).take n →
      ∀ e ∈ (handleModeClose (some [CloseAction.own 7, CloseAction.ack]) "globalclose").take n,
        ∀ c : String, e ≠ CloseEvent.send c) ∧
    ((handleModeClose (some [CloseAction.own 7, CloseAction.ack]) "globalclose").countP
        (fun e => e = CloseEvent.send "globalclose") =
      ([CloseAction.own 7, CloseAction.ack] : List CloseAction).countP
        (fun a => a = CloseAction.ack)) :=
  handleModeClose_handshake "globalclose" [CloseAction.own 7, CloseAction.ack]
    (Or.inl rfl)

/-- C8: each of the five recognized event names invokes the mode's
correspondingly named capability with the payload exactly when that
capability is a function (otherwise nothing happens); any other name
except `langChange` invokes `onMessage(name, data)` when present and
otherwise has no effect. -/
theorem handleCNCServerMessages_dispatch {α : Type} (isFn : String → Bool)
    (data : α) (name : String)
    (h1 : name ≠ "penUpdate") (h2 : name ≠ "bufferUpdate")
    (h3 : name ≠ "fullyPaused") (h4 : name ≠ "fullyResumed")
    (h5 : name ≠ "callbackEvent") (h6 : name ≠ "langChange") :
    (handleCNCServerMessages isFn "penUpdate" data =
      if isFn "onPenUpdate" then CNCResult.callCap "onPenUpdate" data
      else CNCResult.drop) ∧
    (handleCNCServerMessages isFn "bufferUpdate" data =
      if isFn "onBufferUpdate" then CNCResult.callCap "onBufferUpdate" data
      else CNCResult.drop) ∧
    (handleCNCServerMessages isFn "fullyPaused" data =
      if isFn "onFullyPaused" then CNCResult.callCap "onFullyPaused" data
      else CNCResult.drop) ∧
    (handleCNCServerMessages isFn "fullyResumed" data =
      if isFn "onFullyResumed" then CNCResult.callCap "onFullyResumed" data
      else CNCResult.drop) ∧
    (handleCNCServerMessages isFn "callbackEvent" data =
      if isFn "onCallbackEvent" then CNCResult.callCap "onCallbackEvent" data
      else CNCResult.drop) ∧
    (handleCNCServerMessages isFn name data =
      if isFn "onMessage" then CNCResult.callOnMessage name data
      else CNCResult.drop) := by
  refine ⟨?_, ?_, ?_, ?_, ?_, ?_⟩
  · simp [handleCNCServerMessages,
      (by decide : cncFuncName "penUpdate" = "onPenUpdate")]
  · simp [handleCNCServerMessages,
      (by decide : cncFuncName "bufferUpdate" = "onBufferUpdate")]
  · simp [handleCNCServerMessages,
      (by decide : cncFuncName "fullyPaused" = "onFullyPaused")]
  · simp [handleCNCServerMessages,
      (by decide : cncFuncName "fullyResumed" = "onFullyResumed")]
  · simp [handleCNCServerMessages,
      (by decide : cncFuncName "callbackEvent" = "onCallbackEvent")]
  · simp [handleCNCServerMessages, h1, h2, h3, h4, h5, h6]

/-- Witness for `handleCNCServerMessages_dispatch` at a concrete mode
capability table and a concrete unrecognized event name. -/
theorem handleCNCServerMessages_dispatch_witness :
    (handleCNCServerMessages (fun c => c = "onPenUpdate") "penUpdate" (0 : Nat) =
      if (fun c => decide (c = "onPenUpdate")) "onPenUpdate" then
        CNCResult.callCap "onPenUpdate" 0
      else CNCResult.drop) ∧
    (handleCNCServerMessages (fun c => c = "onPenUpdate") "bufferUpdate" (0 : Nat) =
      if (fun c => decide (c = "onPenUpdate")) "onBufferUpdate" then
        CNCResult.callCap "onBufferUpdate" 0
      else CNCResult.drop) ∧
    (handleCNCServerMessages (fun c => c = "onPenUpdate") "fullyPaused" (0 : Nat) =
      if (fun c => decide (c = "onPenUpdate")) "onFullyPaused" then
        CNCResult.callCap "onFullyPaused" 0
      else CNCResult.drop) ∧
    (handleCNCServerMessages (fun c => c = "onPenUpdate") "fullyResumed" (0 : Nat) =
      if (fun c => decide (c = "onPenUpdate")) "onFullyResumed" then
        CNCResult.callCap "onFullyResumed" 0
      else CNCResult.drop) ∧
    (handleCNCServerMessages (fun c => c = "onPenUpdate") "callbackEvent" (0 : Nat) =
      if (fun c => decide (c = "onPenUpdate")) "onCallbackEvent" then
        CNCResult.callCap "onCallbackEvent" 0
      else CNCResult.drop) ∧
    (handleCNCServerMessages (fun c => c = "onPenUpdate") "somethingElse" (0 : Nat) =
      if (fun c => decide (c = "onPenUpdate")) "onMessage" then
        CNCResult.callOnMessage "somethingElse" 0
      else CNCResult.drop) :=
  handleCNCServerMessages_dispatch (fun c => c = "onPenUpdate") 0 "somethingElse"
    (by decide) (by decide) (by decide) (by decide) (by decide) (by decide)

/-- C9 counterexample: a concrete storage and in-memory state where the
`settingsUpdate` handler does not load the mode-namespaced document into
the in-memory mode mapping (`mode.settings.v` is left untouched), so the
claim as stated is false. -/
theorem onSettingsUpdate_not_mode_reload :
    (onSettingsUpdate ⟨[("a", "1")], [("draw", [("k", "2")])]⟩
        ⟨[], []⟩).modeSettingsV ≠
      getSettings ⟨[("a", "1")], [("draw", [("k", "2")])]⟩ (some "draw") := by
  decide

/-- C9 amended: the `settingsUpdate` handler reloads the application-wide
settings document from persistent storage into `robopaint.settings`
(overwriting in-memory state, last writer wins), and leaves the
mode-namespaced in-memory document `mode.settings.v` unchanged; it is
`mode.settings.load()` that reads the mode-namespaced document. -/
theorem onSettingsUpdate_reloads_global (stg : SettingsStorage)
    (st : BridgeSettings) (modeName : String) :
    (onSettingsUpdate stg st).robopaintSettings = getSettings stg none ∧
    (onSettingsUpdate stg st).modeSettingsV = st.modeSettingsV ∧
    (modeSettingsLoad modeName stg st).modeSettingsV =
      getSettings stg (some modeName) := by
  refine ⟨rfl, rfl, rfl⟩

/-- C3: for a language code declared by both a shared-set file and a
parseable non-map mode-local file, the merged tree for that language
keeps every shared key with its value as the common subtree (only the
`modes` key is touched) and holds the whole mode-local file under
`modes.<modeName>`; a mode-local file named as a DOM map is excluded
from the tree. -/
theorem i18n_two_file_merge (s l : LangFile) (lang modeName : String)
    (sd ld : StrMap Json)
    (hs : s.parsed = some sd) (hst : getTarget sd = some lang)
    (hl : l.parsed = some ld) (hlt : getTarget ld = some lang)
    (hmap : isMapFile l.fname = false)
    (hmodes : lookupKey sd "modes" = none) :
    (i18nInit [s] [l] modeName =
      [(lang, setKey sd "modes" (Json.obj [(modeName, Json.obj ld)]))]) ∧
    (∀ k, k ≠ "modes" →
      lookupKey (setKey sd "modes" (Json.obj [(modeName, Json.obj ld)])) k =
        lookupKey sd k) ∧
    (lookupKey (setKey sd "modes" (Json.obj [(modeName, Json.obj ld)])) "modes" =
      some (Json.obj [(modeName, Json.obj ld)]) ∧
     lookupKey [(modeName, Json.obj ld)] modeName = some (Json.obj ld)) ∧
    (∀ lmap : LangFile, isMapFile lmap.fname = true →
      i18nInit [s] [lmap] modeName = [(lang, sd)]) := by
  have hshared : processSharedFile [] s = [(lang, sd)] := by
    simp [processSharedFile, hs, hst, setKey]
  refine ⟨?_, ?_, ⟨?_, ?_⟩, ?_⟩
  · simp only [i18nInit, List.foldl, hshared]
    simp [processModeFile, hmap, hl, hlt, hmodes, lookupKey, setKey]
  · intro k hk
    exact lookupKey_setKey_other sd "modes" k _ hk
  · exact lookupKey_setKey_self sd "modes" _
  · simp [lookupKey]
  · intro lmap hlmap
    simp only [i18nInit, List.foldl, hshared]
    simp [processModeFile, hlmap]

/-- Witness for `i18n_two_file_merge`: a concrete two-file `en-US`
resource set plus a concrete DOM-map-named file. -/
theorem i18n_two_file_merge_witness :
    (i18nInit
        [⟨"en-US.json", some [("_meta", Json.obj [("target", Json.s "en-US")]),
                              ("hello", Json.s "Hi")]⟩]
        [⟨"en-US.json", some [("_meta", Json.obj [("target", Json.s "en-US")]),
                              ("start", Json.s "Go")]⟩]
        "draw" =
      [("en-US", setKey
          [("_meta", Json.obj [("target", Json.s "en-US")]), ("hello", Json.s "Hi")]
          "modes"
          (Json.obj [("draw", Json.obj
            [("_meta", Json.obj [("target", Json.s "en-US")]),
             ("start", Json.s "Go")])]))]) ∧
    (∀ k, k ≠ "modes" →
      lookupKey (setKey
          [("_meta", Json.obj [("target", Json.s "en-US")]), ("hello", Json.s "Hi")]
          "modes"
          (Json.obj [("draw", Json.obj
            [("_meta", Json.obj [("target", Json.s "en-US")]),
             ("start", Json.s "Go")])])) k =
        lookupKey
          [("_meta", Json.obj [("target", Json.s "en-US")]), ("hello", Json.s "Hi")] k) ∧
    (lookupKey (setKey
          [("_meta", Json.obj [("target", Json.s "en-US")]), ("hello", Json.s "Hi")]
          "modes"
          (Json.obj [("draw", Json.obj
            [("_meta", Json.obj [("target", Json.s "en-US")]),
             ("start", Json.s "Go")])])) "modes" =
        some (Json.obj [("draw", Json.obj
          [("_meta", Json.obj [("target", Json.s "en-US")]),
           ("start", Json.s "Go")])]) ∧
     lookupKey [("draw", Json.obj
          [("_meta", Json.obj [("target", Json.s "en-US")]),
           ("start", Json.s "Go")])] "draw" =
        some (Json.obj [("_meta", Json.obj [("target", Json.s "en-US")]),
                        ("start", Json.s "Go")])) ∧
    (∀ lmap : LangFile, isMapFile lmap.fname = true →
      i18nInit
        [⟨"en-US.json", some [("_meta", Json.obj [("target", Json.s "en-US")]),
                              ("hello", Json.s "Hi")]⟩]
        [lmap] "draw" =
      [("en-US", [("_meta", Json.obj [("target", Json.s "en-US")]),
                  ("hello", Json.s "Hi")])]) :=
  i18n_two_file_merge
    ⟨"en-US.json", some [("_meta", Json.obj [("target", Json.s "en-US")]),
                         ("hello", Json.s "Hi")]⟩
    ⟨"en-US.json", some [("_meta", Json.obj [("target", Json.s "en-US")]),
                         ("start", Json.s "Go")]⟩
    "en-US" "draw" _ _ rfl rfl rfl rfl rfl rfl

/-- C4: a non-map mode-local file that parses and declares a language
present in the store gets its whole content inserted under that
language's `modes.<modeName>` subtree (whether `modes` was absent or an
existing object); a file whose processing fails — a parse error, or a
declared language with no corresponding shared-set entry — leaves the
store unchanged and is the only file skipped: the fold over the
remaining files proceeds exactly as if that file were not there. -/
theorem i18n_modeLocal_file_isolation (modeName : String) (res : ResStore)
    (f : LangFile) (d : StrMap Json) (lang : String) :
    (isMapFile f.fname = false → f.parsed = some d → getTarget d = some lang →
      ∀ tree, lookupKey res lang = some tree →
        (lookupKey tree "modes" = none →
          lookupKey (processModeFile modeName res f) lang =
            some (setKey tree "modes" (Json.obj [(modeName, Json.obj d)]))) ∧
        (∀ fields, lookupKey tree "modes" = some (Json.obj fields) →
          lookupKey (processModeFile modeName res f) lang =
            some (setKey tree "modes"
              (Json.obj (setKey fields modeName (Json.obj d)))))) ∧
    (f.parsed = none →
      processModeFile modeName res f = res ∧
      ∀ post : List LangFile,
        List.foldl (processModeFile modeName) res (f :: post) =
          List.foldl (processModeFile modeName) res post) ∧
    (f.parsed = some d → getTarget d = some lang → lookupKey res lang = none →
      processModeFile modeName res f = res ∧
      ∀ post : List LangFile,
        List.foldl (processModeFile modeName) res (f :: post) =
          List.foldl (processModeFile modeName) res post) := by
  refine ⟨?_, ?_, ?_⟩
  · intro hmap hp ht tree htree
    constructor
    · intro hnone
      simp only [processModeFile, hmap, Bool.false_eq_true, if_false, hp, ht,
        htree, hnone]
      exact lookupKey_setKey_self res lang _
    · intro fields hfields
      simp only [processModeFile, hmap, Bool.false_eq_true, if_false, hp, ht,
        htree, hfields]
      exact lookupKey_setKey_self res lang _
  · intro hp
    have hskip : processModeFile modeName res f = res := by
      by_cases hm : isMapFile f.fname
      · simp [processModeFile, hm]
      · simp [processModeFile, hm, hp]
    refine ⟨hskip, fun post => ?_⟩
    show List.foldl (processModeFile modeName) (processModeFile modeName res f) post =
      List.foldl (processModeFile modeName) res post
    rw [hskip]
  · intro hp ht habsent
    have hskip : processModeFile modeName res f = res := by
      by_cases hm : isMapFile f.fname
      · simp [processModeFile, hm]
      · simp [processModeFile, hm, hp, ht, habsent]
    refine ⟨hskip, fun post => ?_⟩
    show List.foldl (processModeFile modeName) (processModeFile modeName res f) post =
      List.foldl (processModeFile modeName) res post
    rw [hskip]

/-- Witness for `i18n_modeLocal_file_isolation`: a store holding only
`en-US`, a good `en-US` file, a file whose require throws, and a
parseable `fr` file with no shared-set `fr` entry. -/
theorem i18n_modeLocal_file_isolation_witness :
    (lookupKey (processModeFile "draw"
        [("en-US", [("hello", Json.s "Hi")])]
        ⟨"en-US.json", some [("_meta", Json.obj [("target", Json.s "en-US")]),
                             ("start", Json.s "Go")]⟩) "en-US" =
      some (setKey [("hello", Json.s "Hi")] "modes"
        (Json.obj [("draw", Json.obj
          [("_meta", Json.obj [("target", Json.s "en-US")]),
           ("start", Json.s "Go")])]))) ∧
    (processModeFile "draw" [("en-US", [("hello", Json.s "Hi")])]
        ⟨"broken.json", none⟩ =
      [("en-US", [("hello", Json.s "Hi")])]) ∧
    (List.foldl (processModeFile "draw") [("en-US", [("hello", Json.s "Hi")])]
        [⟨"broken.json", none⟩,
         ⟨"en-US.json", some [("_meta", Json.obj [("target", Json.s "en-US")]),
                              ("start", Json.s "Go")]⟩] =
      List.foldl (processModeFile "draw") [("en-US", [("hello", Json.s "Hi")])]
        [⟨"en-US.json", some [("_meta", Json.obj [("target", Json.s "en-US")]),
                              ("start", Json.s "Go")]⟩]) ∧
    (processModeFile "draw" [("en-US", [("hello", Json.s "Hi")])]
        ⟨"fr.json", some [("_meta", Json.obj [("target", Json.s "fr")])]⟩ =
      [("en-US", [("hello", Json.s "Hi")])]) := by
  refine ⟨?_, ?_, ?_, ?_⟩
  · exact ((i18n_modeLocal_file_isolation "draw"
      [("en-US", [("hello", Json.s "Hi")])]
      ⟨"en-US.json", some [("_meta", Json.obj [("target", Json.s "en-US")]),
                           ("start", Json.s "Go")]⟩
      [("_meta", Json.obj [("target", Json.s "en-US")]), ("start", Json.s "Go")]
      "en-US").1 rfl rfl rfl [("hello", Json.s "Hi")] rfl).1 rfl
  · exact ((i18n_modeLocal_file_isolation "draw"
      [("en-US", [("hello", Json.s "Hi")])]
      ⟨"broken.json", none⟩ [] "x").2.1 rfl).1
  · exact ((i18n_modeLocal_file_isolation "draw"
      [("en-US", [("hello", Json.s "Hi")])]
      ⟨"broken.json", none⟩ [] "x").2.1 rfl).2
      [⟨"en-US.json", some [("_meta", Json.obj [("target", Json.s "en-US")]),
                            ("start", Json.s "Go")]⟩]
  · exact ((i18n_modeLocal_file_isolation "draw"
      [("en-US", [("hello", Json.s "Hi")])]
      ⟨"fr.json", some [("_meta", Json.obj [("target", Json.s "fr")])]⟩
      [("_meta", Json.obj [("target", Json.s "fr")])] "fr").2.2 rfl rfl rfl).1

theorem radioTrigger_other (id k : String) (hk : k ≠ id)
    (options : List (String × Bool)) :
    ∀ doc : Doc, lookupKey (radioTrigger id doc options) k = lookupKey doc k := by
  induction options with
  | nil => intro doc; rfl
  | cons o rest ih =>
      intro doc
      have hfold : radioTrigger id doc (o :: rest) =
          radioTrigger id (if o.2 then setKey doc id o.1 else doc) rest := rfl
      rw [hfold, ih]
      by_cases h2 : o.2 <;>
        simp [h2, lookupKey_setKey_other doc id k o.1 hk]

theorem radioTrigger_nochecked (id : String) (options : List (String × Bool))
    (h : ∀ o ∈ options, o.2 = false) :
    ∀ doc : Doc, radioTrigger id doc options = doc := by
  induction options with
  | nil => intro doc; rfl
  | cons o rest ih =>
      intro doc
      have hfold : radioTrigger id doc (o :: rest) =
          radioTrigger id (if o.2 then setKey doc id o.1 else doc) rest := rfl
      rw [hfold]
      have h2 : o.2 = false := h o (List.mem_cons_self o rest)
      rw [h2]
      simp only [Bool.false_eq_true, if_false]
      exact ih (fun o' ho' => h o' (List.mem_cons_of_mem o ho')) doc

theorem radioTrigger_const (id s : String) (options : List (String × Bool))
    (hopts : ∀ o ∈ options, o.2 = true → o.1 = s) :
    ∀ doc : Doc, lookupKey doc id = some s → radioTrigger id doc options = doc := by
  induction options with
  | nil => intro doc _; rfl
  | cons o rest ih =>
      intro doc hdoc
      have hfold : radioTrigger id doc (o :: rest) =
          radioTrigger id (if o.2 then setKey doc id o.1 else doc) rest := rfl
      rw [hfold]
      by_cases h2 : o.2 = true
      · have h1 : o.1 = s := hopts o (List.mem_cons_self o rest) h2
        rw [h2, if_pos rfl, h1, setKey_lookup_self doc id s hdoc]
        exact ih (fun o' ho' => hopts o' (List.mem_cons_of_mem o ho')) doc hdoc
      · rw [Bool.not_eq_true] at h2
        rw [h2]
        simp only [Bool.false_eq_true, if_false]
        exact ih (fun o' ho' => hopts o' (List.mem_cons_of_mem o ho')) doc hdoc

theorem radioTrigger_somechecked (id : String) (options : List (String × Bool)) :
    ∀ doc : Doc, (∀ o ∈ options, o.2 = false) ∨
      ∃ s, lookupKey (radioTrigger id doc options) id = some s := by
  induction options with
  | nil => intro doc; left; intro o ho; cases ho
  | cons o rest ih =>
      intro doc
      have hfold : radioTrigger id doc (o :: rest) =
          radioTrigger id (if o.2 then setKey doc id o.1 else doc) rest := rfl
      by_cases h2 : o.2 = true
      · right
        rcases ih (setKey doc id o.1) with hall | ⟨s, hs⟩
        · refine ⟨o.1, ?_⟩
          rw [hfold, h2, if_pos rfl, radioTrigger_nochecked id rest hall]
          exact lookupKey_setKey_self doc id o.1
        · refine ⟨s, ?_⟩
          rw [hfold, h2, if_pos rfl]
          exact hs
      · rw [Bool.not_eq_true] at h2
        have hfold' : radioTrigger id doc (o :: rest) = radioTrigger id doc rest := by
          rw [hfold, h2]
          simp only [Bool.false_eq_true, if_false]
        rcases ih doc with hall | ⟨s, hs⟩
        · left
          intro o' ho'
          rcases List.mem_cons.mp ho' with rfl | ho'
          · exact h2
          · exact hall o' ho'
        · right
          exact ⟨s, hfold' ▸ hs⟩

theorem manageStep_mono (c : Control) (doc : Doc) (k v : String)
    (h : lookupKey doc k = some v) : lookupKey (manageStep c doc).2 k = some v := by
  cases c with
  | scalar id cv =>
      by_cases hk : k = id
      · subst hk
        cases hd : lookupKey doc k with
        | none => rw [hd] at h; cases h
        | some s =>
            rw [hd] at h
            simp only [manageStep, hd, Option.getD_some]
            rw [lookupKey_setKey_self]
            exact h
      · simp only [manageStep]
        rw [lookupKey_setKey_other doc id k _ hk]
        exact h
  | radio id options =>
      cases options with
      | nil => exact h
      | cons o rest =>
          by_cases hk : k = id
          · subst hk
            cases hd : lookupKey doc k with
            | none => rw [hd] at h; cases h
            | some s =>
                rw [hd] at h
                simp only [manageStep, hd]
                have hconst : radioTrigger k doc
                    ((o :: rest).map (fun x => (x.1, decide (x.1 = s)))) = doc := by
                  apply radioTrigger_const k s _ ?_ doc hd
                  intro o' ho' h2
                  rcases List.mem_map.mp ho' with ⟨x, _, rfl⟩
                  exact of_decide_eq_true h2
                rw [hconst, hd]
                exact h
          · cases hd : lookupKey doc id with
            | none =>
                simp only [manageStep, hd]
                rw [radioTrigger_other id k hk]
                exact h
            | some s =>
                simp only [manageStep, hd]
                rw [radioTrigger_other id k hk]
                exact h
  | incompatible id => exact h

theorem settled_mono (c : Control) (d d' : Doc)
    (hmono : ∀ k v, lookupKey d k = some v → lookupKey d' k = some v)
    (hs : settled c d) : settled c d' := by
  cases c with
  | scalar id cv => exact hmono _ _ hs
  | radio id options =>
      rcases hs with h | ⟨s, hsome⟩ | h
      · exact Or.inl h
      · exact Or.inr (Or.inl ⟨s, hmono _ _ hsome⟩)
      · exact Or.inr (Or.inr h)
  | incompatible id => trivial

theorem manageStep_settled (c : Control) (doc : Doc) :
    settled (manageStep c doc).1 (manageStep c doc).2 := by
  cases c with
  | scalar id cv =>
      simp only [manageStep, settled]
      exact lookupKey_setKey_self doc id _
  | radio id options =>
      cases options with
      | nil => exact Or.inl rfl
      | cons o rest =>
          cases hd : lookupKey doc id with
          | some s =>
              simp only [manageStep, hd, settled]
              refine Or.inr (Or.inl ⟨s, ?_⟩)
              have hconst : radioTrigger id doc
                  ((o :: rest).map (fun x => (x.1, decide (x.1 = s)))) = doc := by
                apply radioTrigger_const id s _ ?_ doc hd
                intro o' ho' h2
                rcases List.mem_map.mp ho' with ⟨x, _, rfl⟩
                exact of_decide_eq_true h2
              rw [hconst]
              exact hd
          | none =>
              simp only [manageStep, hd, settled]
              rcases radioTrigger_somechecked id (o :: rest) doc with hall | ⟨s, hs⟩
              · exact Or.inr (Or.inr hall)
              · exact Or.inr (Or.inl ⟨s, hs⟩)
  | incompatible id => trivial

theorem manageStep_noop (c : Control) (doc : Doc) (hs : settled c doc) :
    (manageStep c doc).2 = doc := by
  cases c with
  | scalar id cv =>
      have h : lookupKey doc id = some cv := hs
      simp only [manageStep, h, Option.getD_some]
      exact setKey_lookup_self doc id cv h
  | radio id options =>
      cases options with
      | nil => rfl
      | cons o rest =>
          cases hd : lookupKey doc id with
          | some s =>
              simp only [manageStep, hd]
              apply radioTrigger_const id s _ ?_ doc hd
              intro o' ho' h2
              rcases List.mem_map.mp ho' with ⟨x, _, rfl⟩
              exact of_decide_eq_true h2
          | none =>
              rcases hs with h | ⟨s, hsome⟩ | h
              · cases h
              · rw [hd] at hsome; cases hsome
              · simp only [manageStep, hd]
                exact radioTrigger_nochecked id (o :: rest) h doc
  | incompatible id => rfl

theorem manageLoop_mono (cs : List Control) :
    ∀ (doc : Doc) (k v : String), lookupKey doc k = some v →
      lookupKey (manageLoop cs doc).2 k = some v := by
  induction cs with
  | nil => intro doc k v h; exact h
  | cons c rest ih =>
      intro doc k v h
      exact ih (manageStep c doc).2 k v (manageStep_mono c doc k v h)

theorem manageLoop_settled (cs : List Control) :
    ∀ doc : Doc, ∀ c' ∈ (manageLoop cs doc).1,
      settled c' (manageLoop cs doc).2 := by
  induction cs with
  | nil => intro doc c' hc'; cases hc'
  | cons c rest ih =>
      intro doc c' hc'
      have hmem : c' = (manageStep c doc).1 ∨
          c' ∈ (manageLoop rest (manageStep c doc).2).1 := by
        simpa [manageLoop] using hc'
      rcases hmem with rfl | hmem
      · exact settled_mono _ _ _
          (fun k v h => manageLoop_mono rest (manageStep c doc).2 k v h)
          (manageStep_settled c doc)
      · exact ih (manageStep c doc).2 c' hmem

theorem manageLoop_noop (cs : List Control) :
    ∀ doc : Doc, (∀ c ∈ cs, settled c doc) → (manageLoop cs doc).2 = doc := by
  induction cs with
  | nil => intro doc _; rfl
  | cons c rest ih =>
      intro doc h
      have h1 : (manageStep c doc).2 = doc :=
        manageStep_noop c doc (h c (List.mem_cons_self c rest))
      show (manageLoop rest (manageStep c doc).2).2 = doc
      rw [h1]
      exact ih doc (fun c' hc' => h c' (List.mem_cons_of_mem c hc'))

/-- C5: `$manage` is idempotent on the persisted settings document: for
any matched controls over any starting document, running the call twice
(the second over the DOM state the first produced, unchanged in
between) yields the same persisted document as running it once. -/
theorem manage_idempotent (p : List Control × Doc) :
    (manage (manage p)).2 = (manage p).2 := by
  obtain ⟨cs, doc⟩ := p
  show (manageLoop (manageLoop cs doc).1 (manageLoop cs doc).2).2 =
    (manageLoop cs doc).2
  exact manageLoop_noop _ _ (manageLoop_settled cs doc)

theorem manageLoop_append (xs ys : List Control) :
    ∀ doc : Doc, (manageLoop (xs ++ ys) doc).2 =
      (manageLoop ys (manageLoop xs doc).2).2 := by
  induction xs with
  | nil => intro doc; rfl
  | cons c rest ih =>
      intro doc
      exact ih (manageStep c doc).2

/-- C10: a compatible control with no previously stored value when it
is reached gets its current value written and persisted by the
synthesized initial change event: a scalar's identifier maps to its
current value in the final document; a radio group yields a stored
value exactly when some option is currently checked (an all-unchecked
group writes nothing). -/
theorem manage_first_run_persists (pre post : List Control) (doc : Doc)
    (id cv : String) (options : List (String × Bool)) (w : String × Bool)
    (h1 : lookupKey (manageLoop pre doc).2 id = none) :
    (lookupKey (manageLoop (pre ++ Control.scalar id cv :: post) doc).2 id =
      some cv) ∧
    (w ∈ options → w.2 = true →
      ∃ s, lookupKey (manageLoop (pre ++ Control.radio id options :: post) doc).2
        id = some s) ∧
    ((∀ o ∈ options, o.2 = false) →
      (manageStep (Control.radio id options) (manageLoop pre doc).2).2 =
        (manageLoop pre doc).2) := by
  refine ⟨?_, ?_, ?_⟩
  · rw [manageLoop_append]
    have hstep : lookupKey (manageStep (Control.scalar id cv)
        (manageLoop pre doc).2).2 id = some cv := by
      simp only [manageStep, h1, Option.getD_none]
      exact lookupKey_setKey_self _ id cv
    exact manageLoop_mono post _ id cv hstep
  · intro hw h2
    rw [manageLoop_append]
    cases options with
    | nil => cases hw
    | cons o rest =>
        rcases radioTrigger_somechecked id (o :: rest) (manageLoop pre doc).2 with
          hall | ⟨s, hs⟩
        · rw [hall w hw] at h2; cases h2
        · refine ⟨s, manageLoop_mono post _ id s ?_⟩
          simpa only [manageStep, h1] using hs
  · intro hall
    cases options with
    | nil => rfl
    | cons o rest =>
        simp only [manageStep, h1]
        exact radioTrigger_nochecked id (o :: rest) hall _

/-- Witness for `manage_first_run_persists`: empty page prefix, a fresh
scalar control and a one-option checked radio group over an empty
stored document. -/
theorem manage_first_run_persists_witness :
    (lookupKey (manageLoop ([] ++ Control.scalar "speed" "5" :: []) []).2
        "speed" = some "5") ∧
    (("fast", true) ∈ [("fast", true)] → (("fast", true) : String × Bool).2 = true →
      ∃ s, lookupKey
        (manageLoop ([] ++ Control.radio "speed" [("fast", true)] :: []) []).2
        "speed" = some s) ∧
    ((∀ o ∈ [("fast", true)], (o : String × Bool).2 = false) →
      (manageStep (Control.radio "speed" [("fast", true)])
          (manageLoop [] ([] : Doc)).2).2 = (manageLoop [] ([] : Doc)).2) :=
  manage_first_run_persists [] [] [] "speed" "5" [("fast", true)] ("fast", true) rfl

theorem replaceFirstTextNode_filter (children : List Node) (s : String) :
    (replaceFirstTextNode children s).filter isElemNode =
      children.filter isElemNode := by
  induction children with
  | nil => rfl
  | cons n rest ih =>
      cases n with
      | text t => simp [replaceFirstTextNode, List.filter, isElemNode]
      | elem tag attrs cs =>
          simp [replaceFirstTextNode, List.filter, isElemNode, ih]

theorem replaceFirstTextNode_first (pre post : List Node) (t s : String)
    (hpre : ∀ n ∈ pre, isElemNode n = true) :
    replaceFirstTextNode (pre ++ Node.text t :: post) s =
      pre ++ Node.text s :: post := by
  induction pre with
  | nil => rfl
  | cons n rest ih =>
      cases n with
      | text u =>
          have := hpre (Node.text u) (List.mem_cons_self _ _)
          simp [isElemNode] at this
      | elem tag attrs cs =>
          simp only [List.cons_append, replaceFirstTextNode]
          exact congrArg (List.cons (Node.elem tag attrs cs))
            (ih (fun n hn => hpre n (List.mem_cons_of_mem _ hn)))

theorem replaceFirstTextNode_notext (children : List Node) (s : String)
    (h : ∀ n ∈ children, isElemNode n = true) :
    replaceFirstTextNode children s = children := by
  induction children with
  | nil => rfl
  | cons n rest ih =>
      cases n with
      | text u =>
          have := h (Node.text u) (List.mem_cons_self _ _)
          simp [isElemNode] at this
      | elem tag attrs cs =>
          simp only [replaceFirstTextNode]
          rw [ih (fun n hn => h n (List.mem_cons_of_mem _ hn))]

theorem applyMapRule_attrMap_frame (tr : String → String)
    (m : List (String × String)) :
    ∀ (attrs : List (String × String)) (children : List Node),
      ((applyMapRule tr (MapRule.attrMap m) attrs children).2).filter isElemNode =
        children.filter isElemNode ∧
      (∀ a, a ∉ m.map Prod.fst →
        lookupKey (applyMapRule tr (MapRule.attrMap m) attrs children).1 a =
          lookupKey attrs a) := by
  induction m with
  | nil => intro attrs children; exact ⟨rfl, fun a _ => rfl⟩
  | cons am rest ih =>
      intro attrs children
      have hfold : applyMapRule tr (MapRule.attrMap (am :: rest)) attrs children =
          applyMapRule tr (MapRule.attrMap rest)
            (if am.1 = "text" then attrs else setKey attrs am.1 (tr am.2))
            (if am.1 = "text" then replaceFirstTextNode children (tr am.2)
             else children) := by
        by_cases ht : am.1 = "text" <;>
          simp [applyMapRule, ht]
      rw [hfold]
      rcases ih (if am.1 = "text" then attrs else setKey attrs am.1 (tr am.2))
        (if am.1 = "text" then replaceFirstTextNode children (tr am.2)
         else children) with ⟨hchild, hattr⟩
      constructor
      · rw [hchild]
        by_cases ht : am.1 = "text"
        · simp [ht, replaceFirstTextNode_filter]
        · simp [ht]
      · intro a ha
        have ha1 : a ∉ rest.map Prod.fst := by
          intro hmem
          exact ha (List.mem_cons_of_mem _ hmem)
        have ha2 : a ≠ am.1 := by
          intro heq
          exact ha (heq ▸ List.mem_cons_self _ _)
        rw [hattr a ha1]
        by_cases ht : am.1 = "text"
        · simp [ht]
        · simp only [ht, if_false]
          exact lookupKey_setKey_other attrs am.1 a (tr am.2) ha2

/-- C6: DOM-map translation touches only what the rule names. A string
key (or the pseudo-attribute `text`) changes only the element's first
direct text node: child elements are never removed or reordered, a
text-node-free element is untouched, and the element's attributes are
untouched by a text rule; an attribute rule changes only the named
attributes, leaving child elements and all other attributes as they
were. -/
theorem domMap_translation_frame (tr : String → String) (k : String)
    (attrs : List (String × String)) (children pre post : List Node)
    (t s : String) (m : List (String × String))
    (hpre : ∀ n ∈ pre, isElemNode n = true)
    (hnone : ∀ n ∈ children, isElemNode n = true) :
    (applyMapRule tr (MapRule.key k) attrs children =
      (attrs, replaceFirstTextNode children (tr k))) ∧
    ((replaceFirstTextNode children s).filter isElemNode =
      children.filter isElemNode) ∧
    (replaceFirstTextNode (pre ++ Node.text t :: post) s =
      pre ++ Node.text s :: post) ∧
    (replaceFirstTextNode children s = children) ∧
    (((applyMapRule tr (MapRule.attrMap m) attrs children).2).filter isElemNode =
      children.filter isElemNode) ∧
    (∀ a, a ∉ m.map Prod.fst →
      lookupKey (applyMapRule tr (MapRule.attrMap m) attrs children).1 a =
        lookupKey attrs a) := by
  refine ⟨rfl, replaceFirstTextNode_filter children s,
    replaceFirstTextNode_first pre post t s hpre,
    replaceFirstTextNode_notext children s hnone,
    (applyMapRule_attrMap_frame tr m attrs children).1,
    (applyMapRule_attrMap_frame tr m attrs children).2⟩

/-- Witness for `domMap_translation_frame`: a concrete button element
with a child span before its text node, under a title-plus-text
attribute rule. -/
theorem domMap_translation_frame_witness :
    (applyMapRule (fun k => String.append "tr:" k) (MapRule.key "hello")
        [("id", "b1")] [Node.elem "span" [] []] =
      ([("id", "b1")],
        replaceFirstTextNode [Node.elem "span" [] []]
          (String.append "tr:" "hello"))) ∧
    ((replaceFirstTextNode [Node.elem "span" [] []] "new").filter isElemNode =
      ([Node.elem "span" [] []] : List Node).filter isElemNode) ∧
    (replaceFirstTextNode
        ([Node.elem "span" [] []] ++ Node.text "old" :: [Node.text "tail"]) "new" =
      [Node.elem "span" [] []] ++ Node.text "new" :: [Node.text "tail"]) ∧
    (replaceFirstTextNode [Node.elem "span" [] []] "new" =
      [Node.elem "span" [] []]) ∧
    (((applyMapRule (fun k => String.append "tr:" k)
        (MapRule.attrMap [("title", "k1"), ("text", "k2")])
        [("id", "b1")] [Node.elem "span" [] []]).2).filter isElemNode =
      ([Node.elem "span" [] []] : List Node).filter isElemNode) ∧
    (∀ a, a ∉ ([("title", "k1"), ("text", "k2")] : List (String × String)).map
        Prod.fst →
      lookupKey (applyMapRule (fun k => String.append "tr:" k)
          (MapRule.attrMap [("title", "k1"), ("text", "k2")])
          [("id", "b1")] [Node.elem "span" [] []]).1 a =
        lookupKey [("id", "b1")] a) :=
  domMap_translation_frame (fun k => String.append "tr:" k) "hello"
    [("id", "b1")] [Node.elem "span" [] []] [Node.elem "span" [] []]
    [Node.text "tail"] "old" "new" [("title", "k1"), ("text", "k2")]
    (by intro n hn; simp only [List.mem_singleton] at hn; subst hn; rfl)
    (by intro n hn; simp only [List.mem_singleton] at hn; subst hn; rfl)

theorem normalizeMarker_idem (e : NativeElem) :
    normalizeMarker (normalizeMarker e) = normalizeMarker e := by
  by_cases hm : e.marker = some ""
  · by_cases hd : jsContainsDot e.text = true
    · have h1 : normalizeMarker e = { e with marker := some e.text } := by
        simp [normalizeMarker, hm, hd]
      have htext : e.text ≠ "" := by
        intro h0
        rw [h0] at hd
        exact absurd hd (by decide)
      rw [h1]
      simp [normalizeMarker, htext]
    · have h1 : normalizeMarker e = e := by
        simp [normalizeMarker, hm, hd]
      rw [h1, h1]
  · have h1 : normalizeMarker e = e := by
      simp [normalizeMarker, hm]
    rw [h1, h1]

/-- C7 counterexample: an element whose translation marker is empty but
whose own text ("hello") contains no dot is not rewritten — its marker
stays empty instead of becoming its text — so the claim as stated
fails. -/
theorem nativeNormalize_counterexample :
    ¬ ((normalizeMarker ⟨some "", "hello"⟩).marker = some "hello") := by
  decide

/-- C7 amended: the normalization rewrites the empty marker in place to
the element's own text exactly for those elements whose text contains a
'.' (the shape of a translation key); an empty-marker element without a
dot is left untouched; either way the text is unchanged and the pass is
idempotent, so repeated runs of `translate()` behave the same. -/
theorem nativeNormalize_rewrites_dotted (e : NativeElem)
    (hm : e.marker = some "") (hd : jsContainsDot e.text = true) :
    (normalizeMarker e).marker = some e.text ∧
    (normalizeMarker e).text = e.text ∧
    (∀ x : NativeElem, x.marker = some "" → jsContainsDot x.text = false →
      normalizeMarker x = x) ∧
    (∀ els : List NativeElem,
      nativeNormalizePass (nativeNormalizePass els) = nativeNormalizePass els) := by
  refine ⟨?_, ?_, ?_, ?_⟩
  · simp [normalizeMarker, hm, hd]
  · simp [normalizeMarker, hm, hd]
  · intro x hxm hxd
    simp [normalizeMarker, hxm, hxd]
  · intro els
    simp only [nativeNormalizePass, List.map_map]
    apply List.map_congr_left
    intro e' _
    exact normalizeMarker_idem e'

/-- Witness for `nativeNormalize_rewrites_dotted` at an element whose
text is a dotted translation key. -/
theorem nativeNormalize_rewrites_dotted_witness :
    (normalizeMarker ⟨some "", "modes.draw.title"⟩).marker =
      some (NativeElem.mk (some "") "modes.draw.title").text ∧
    (normalizeMarker ⟨some "", "modes.draw.title"⟩).text =
      (NativeElem.mk (some "") "modes.draw.title").text ∧
    (∀ x : NativeElem, x.marker = some "" → jsContainsDot x.text = false →
      normalizeMarker x = x) ∧
    (∀ els : List NativeElem,
      nativeNormalizePass (nativeNormalizePass els) = nativeNormalizePass els) :=
  nativeNormalize_rewrites_dotted ⟨some "", "modes.draw.title"⟩ rfl (by decide)
